import Mathlib

/-!
Verification of the RAG core of the TeamGen Nyay-Sahayak repository
(`build_index.py` and `backend/app/services/rag_pipeline.py`).

Python strings are modelled as lists of characters (`Str`), and the
Python string operations used by the code (`split`, `strip`, `lower`,
`in`, `splitlines`, `join`, `endswith`) are given executable structural
definitions below, so that every model evaluates on concrete inputs.
-/

namespace Nyay

/-- Model of a Python `str`: a list of characters. -/
abbrev Str := List Char

/-- Python truthiness of an `Optional[str]`: `None` and the empty string
are falsy, every other string is truthy. -/
def truthy : Option Str → Bool
  | none => false
  | some s => !s.isEmpty

/-- `o or ""` for an optional string: the string itself, `""` for `None`. -/
def strOrEmpty (o : Option Str) : Str := o.getD []

/-- Python `s.lower()` (character-wise lower-casing). -/
def pyLower (s : Str) : Str := s.map Char.toLower

/-- Python `s.strip()`: remove leading and trailing whitespace. -/
def pyStrip (s : Str) : Str :=
  ((s.dropWhile Char.isWhitespace).reverse.dropWhile Char.isWhitespace).reverse

/-- Python substring containment `needle in hay` (second argument is the
needle), scanning every start position. -/
def pyContains (hay needle : Str) : Bool :=
  match hay with
  | [] => needle.isEmpty
  | _ :: t => needle.isPrefixOf hay || pyContains t needle

/-- Python `s.endswith(suf)`. -/
def pyEndsWith (s suf : Str) : Bool := List.isSuffixOf suf s

/-- Structural worker for `pySplitWs`; the fuel argument is an upper
bound on the length of the remaining input, so the definition is
structurally recursive and evaluates inside the kernel. -/
def splitWsGo : Nat → Str → List Str
  | 0, _ => []
  | _ + 1, [] => []
  | f + 1, c :: t =>
    if c.isWhitespace then splitWsGo f t
    else (c :: t.takeWhile (fun d => !d.isWhitespace)) ::
      splitWsGo f (t.dropWhile (fun d => !d.isWhitespace))

/-- Python `text.split()` with no separator: split on runs of whitespace,
producing no empty words. -/
def pySplitWs (s : Str) : List Str := splitWsGo s.length s

/-- Split on newline characters, keeping empty pieces (helper for
`pySplitLines`); the result always has at least one piece. -/
def lineBreakSplit : Str → List Str
  | [] => [[]]
  | c :: t =>
    if c = '\n' then [] :: lineBreakSplit t
    else
      match lineBreakSplit t with
      | [] => [[c]]
      | h :: r => (c :: h) :: r

/-- Python `text.splitlines()` restricted to `\n` line breaks: like
`lineBreakSplit` but the empty string has no lines and a trailing
newline produces no final empty line. -/
def pySplitLines (s : Str) : List Str :=
  match s with
  | [] => []
  | _ =>
    let ps := lineBreakSplit s
    if ps.getLast? = some [] then ps.dropLast else ps

/-- Python `" ".join(words)`. -/
def joinWords (ws : List Str) : Str := List.intercalate [' '] ws

/-- Decimal digit character (for `str(i)` on chunk ordinals). -/
def digitChar (n : Nat) : Char := Char.ofNat (48 + n)

/-- Structural worker for `natStr` (fuel bounds the number of digits). -/
def natStrGo : Nat → Nat → Str
  | 0, _ => []
  | f + 1, n =>
    if n < 10 then [digitChar n]
    else natStrGo f (n / 10) ++ [digitChar (n % 10)]

/-- Python `str(n)` for a natural number. -/
def natStr (n : Nat) : Str := natStrGo (n + 1) n

/-! ## Chunker (`build_index.py`, `chunk_text`)

The source fixes `CHUNK_SIZE_WORDS = 450` and `CHUNK_OVERLAP = 80`; the
spec states the contract for any configuration with
`0 <= overlap_words < size_words`, so the model takes the two numbers as
parameters and the source constants are defined alongside. -/

/-- `CHUNK_SIZE_WORDS` from `build_index.py`. -/
def CHUNK_SIZE_WORDS : Nat := 450

/-- `CHUNK_OVERLAP` from `build_index.py`. -/
def CHUNK_OVERLAP : Nat := 80

/-- Structural worker for `chunkWindows`: the fuel argument bounds the
length of the remaining word list.  Mirrors the loop
`while i < len(words): chunk = words[i:i+size]; i += size - overlap`
expressed on the suffix of `words` starting at `i`; one recursive step
drops `size - overlap` words, written as dropping `size - overlap - 1`
words of the tail of a non-empty list. -/
def chunkGo (size overlap : Nat) : Nat → List α → List (List α)
  | 0, _ => []
  | _ + 1, [] => []
  | f + 1, w :: ws =>
    (w :: ws).take size :: chunkGo size overlap f (ws.drop (size - overlap - 1))

/-- The word windows produced by `chunk_text` in `build_index.py`:
windows of `size` words starting every `size - overlap` words, while
words remain. -/
def chunkWindows (size overlap : Nat) (words : List α) : List (List α) :=
  chunkGo size overlap words.length words

/-- `chunk_text` from `build_index.py`: whitespace-tokenize the text and
join each word window with single spaces. -/
def chunk_text (size overlap : Nat) (text : Str) : List Str :=
  (chunkWindows size overlap (pySplitWs text)).map joinWords

/-- Word sequence obtained by concatenating chunk windows after dropping
the first `overlap` words of every window except the first (the
reconstruction operation named by the spec's chunker round-trip
property). -/
def reconstruct (overlap : Nat) : List (List α) → List α
  | [] => []
  | c :: cs => c ++ (cs.map (List.drop overlap)).flatten

/-! ## Index builder (`build_index.py`, `main`) -/

/-- The metadata record built per source file in `build_index.py`
(`meta = {"source_name": fname, "url": "", ...}` extended with `city`
and `incident_type`). -/
structure Meta where
  source_name : Str
  url : Str
  date_published : Str
  jurisdiction : Str
  doc_type : Str
  city : Str
  incident_type : Str
deriving DecidableEq, Repr

/-- The initial metadata dict: `source_name` is the file name, every
other recognized key defaults to the empty string. -/
def initMeta (fname : Str) : Meta := ⟨fname, [], [], [], [], [], []⟩

/-- One step of the metadata header scan in `build_index.py` `main`:
`if ":" in ln: k, v = ln.split(":", 1); if k.strip().lower() in meta:
meta[k.strip().lower()] = v.strip()`.  A line without a colon is
skipped; an unrecognized key leaves the dict unchanged. -/
def applyMetaLine (m : Meta) (ln : Str) : Meta :=
  if pyContains ln [':'] then
    let k := pyLower (pyStrip (ln.takeWhile (fun c => c ≠ ':')))
    let v := pyStrip ((ln.dropWhile (fun c => c ≠ ':')).drop 1)
    if k = ("source_name").data then { m with source_name := v }
    else if k = ("url").data then { m with url := v }
    else if k = ("date_published").data then { m with date_published := v }
    else if k = ("jurisdiction").data then { m with jurisdiction := v }
    else if k = ("doc_type").data then { m with doc_type := v }
    else if k = ("city").data then { m with city := v }
    else if k = ("incident_type").data then { m with incident_type := v }
    else m
  else m

/-- The metadata parse in `build_index.py` `main`:
`for ln in text.splitlines()[:10]: ...` — only the first 10 lines are
scanned. -/
def parseMeta (fname : Str) (lines : List Str) : Meta :=
  (lines.take 10).foldl applyMetaLine (initMeta fname)

/-- A chunk record appended to `docs` in `build_index.py` `main`:
`{"id": f"{fname}__chunk{i}", "text": c, "meta": meta}`. -/
structure ChunkDoc where
  id : Str
  text : Str
  meta : Meta
deriving DecidableEq, Repr

/-- Per-file processing of `build_index.py` `main`: parse metadata from
the first 10 lines, then chunk the FULL text (the source passes `text`,
not the post-header remainder, to `chunk_text`). -/
def processFile (fname text : Str) : List ChunkDoc :=
  let meta := parseMeta fname (pySplitLines text)
  (chunk_text CHUNK_SIZE_WORDS CHUNK_OVERLAP text).enum.map
    (fun ic => ⟨fname ++ ("__chunk").data ++ natStr ic.1, ic.2, meta⟩)

/-- File extension filter of `build_index.py` `main`:
`fname.lower().endswith((".txt", ".md"))`. -/
def isTextLike (fname : Str) : Bool :=
  pyEndsWith (pyLower fname) (".txt").data || pyEndsWith (pyLower fname) (".md").data

/-- The full `docs` list accumulated by `build_index.py` `main` over the
directory listing, in enumeration order. -/
def buildDocs (files : List (Str × Str)) : List ChunkDoc :=
  (files.filter (fun f => isTextLike f.1)).flatMap (fun f => processFile f.1 f.2)

/-- Python exception values raised by the pipeline code, tagged with the
Python exception type they instantiate. -/
inductive PyError where
  | fileNotFound (msg : Str)
  | runtimeError (msg : Str)
deriving DecidableEq, Repr

/-- The Python exception class name of an error value (both load
failures in `rag_pipeline.py` use the builtin `FileNotFoundError`). -/
def PyError.excType : PyError → Str
  | .fileNotFound _ => ("FileNotFoundError").data
  | .runtimeError _ => ("RuntimeError").data

/-- Decidable equality of `Except` results, so concrete runs of the
modelled entry points can be checked by `decide`. -/
instance instDecEqExcept {ε α : Type} [DecidableEq ε] [DecidableEq α] :
    DecidableEq (Except ε α) := fun x y =>
  match x, y with
  | .ok a, .ok b =>
    if h : a = b then .isTrue (by rw [h])
    else .isFalse (by intro hc; injection hc; contradiction)
  | .ok _, .error _ => .isFalse (by intro hc; exact Except.noConfusion hc)
  | .error _, .ok _ => .isFalse (by intro hc; exact Except.noConfusion hc)
  | .error a, .error b =>
    if h : a = b then .isTrue (by rw [h])
    else .isFalse (by intro hc; injection hc; contradiction)

/-- Build outcomes of `build_index.py` `main` on an existing data
directory: either the `if not docs: print(...); return` early return, or
a successful build reporting `len(docs)`. -/
inductive BuildOutcome where
  | noValidDocs
  | built (count : Nat)
deriving DecidableEq, Repr

/-- The pair of artifacts written by a successful build: the vector list
added to the FAISS index and the records of `metadata.jsonl`, in the
same order. -/
structure Persisted (α : Type) where
  vectors : List α
  metadataLines : List ChunkDoc
deriving DecidableEq, Repr

/-- `main` of `build_index.py` on an existing data directory, over an
abstract embedder `encode` (the external SentenceTransformer) and
normalizer `normalize` (the external `faiss.normalize_L2`, applied
row-wise before `index.add`).  The first component of the result is the
durable storage after the run: on the empty-docs early return nothing is
written and the previous persisted index survives; on success both files
are overwritten together.  `main` raises no exception in either of these
paths, hence always returns `Except.ok`. -/
def buildMain {α : Type} (encode : Str → α) (normalize : α → α)
    (prev : Option (Persisted α)) (files : List (Str × Str)) :
    Except PyError (Option (Persisted α) × BuildOutcome) :=
  let docs := buildDocs files
  if docs.isEmpty then .ok (prev, .noValidDocs)
  else
    let texts := docs.map (fun d => d.text)
    let embeds := (texts.map encode).map normalize
    .ok (some ⟨embeds, docs⟩, .built docs.length)

/-! ## Retrieval (`backend/app/services/rag_pipeline.py`) -/

/-- The view of a metadata record used by `RAGPipeline.retrieve` and its
inner `matches_filters`: the chunk text and the two filterable
dimensions (`meta.get("city", "")`, `meta.get("incident_type", "")`,
with `or ""` collapsing `None` to the empty string). -/
structure Record where
  text : Str
  city : Str
  incident_type : Str
deriving DecidableEq, Repr

/-- `matches_filters` from `RAGPipeline.retrieve`: for each supplied
truthy filter value, normalize both sides with `.strip().lower()` and
fail the candidate only when neither normalized string contains the
other. -/
def matches_filters (city incident : Option Str) (meta : Record) : Bool :=
  if truthy city &&
      (!(pyContains (pyLower (pyStrip meta.city)) (pyLower (pyStrip (strOrEmpty city)))) &&
       !(pyContains (pyLower (pyStrip (strOrEmpty city))) (pyLower (pyStrip meta.city))))
  then false
  else if truthy incident &&
      (!(pyContains (pyLower (pyStrip meta.incident_type))
          (pyLower (pyStrip (strOrEmpty incident)))) &&
       !(pyContains (pyLower (pyStrip (strOrEmpty incident)))
          (pyLower (pyStrip meta.incident_type))))
  then false
  else true

/-- The spec-worded per-dimension filter predicate of claim C4, exactly
as the claim states it: pass iff no value was supplied, or the
lower-cased supplied value is a substring of the lower-cased record
field, or conversely — with no whitespace stripping. -/
def claimPasses (v : Option Str) (field : Str) : Bool :=
  match v with
  | none => true
  | some s => pyContains (pyLower field) (pyLower s) ||
      pyContains (pyLower s) (pyLower field)

/-- Claim C4's matcher: a candidate is kept iff it passes both
dimensions of `claimPasses`. -/
def claimMatches (city incident : Option Str) (meta : Record) : Bool :=
  claimPasses city meta.city && claimPasses incident meta.incident_type

/-- Code-faithful per-dimension filter predicate: pass iff the value is
not truthy, or after `.strip().lower()` on both sides one string
contains the other. -/
def passDim (v : Option Str) (field : Str) : Bool :=
  !truthy v ||
    pyContains (pyLower (pyStrip field)) (pyLower (pyStrip (strOrEmpty v))) ||
    pyContains (pyLower (pyStrip (strOrEmpty v))) (pyLower (pyStrip field))

/-- Modelled from the spec: the external FAISS `IndexFlatIP.search`
(third-party library, not part of this repository), per the §4.3 Vector
Index contract — exact search returning up to `k` (index, score) pairs
ranked by descending inner product, stably, over the inner-product score
of the query against each stored vector.  Scores are modelled as
rationals. -/
def searchIdx (scores : List ℚ) (k : Nat) : List (Nat × ℚ) :=
  (List.insertionSort (fun a b : Nat × ℚ => b.2 ≤ a.2) scores.enum).take k

/-- The descending-score ranking relation is total. -/
instance instScoreRankTotal :
    IsTotal (Nat × ℚ) (fun a b => b.2 ≤ a.2) :=
  ⟨fun a b => le_total b.2 a.2⟩

/-- The descending-score ranking relation is transitive. -/
instance instScoreRankTrans :
    IsTrans (Nat × ℚ) (fun a b => b.2 ≤ a.2) :=
  ⟨fun _ _ _ h1 h2 => le_trans h2 h1⟩

/-- The result-assembly loop of `RAGPipeline.retrieve`: walk the search
hits in rank order, skip hits whose index is out of range of the
metadata list, keep hits passing `matches_filters`, and break once
`top_k` results are collected. -/
def collectLoop (metadata : List Record) (city incident : Option Str)
    (top_k : Nat) : List (Nat × ℚ) → List (Record × ℚ) → List (Record × ℚ)
  | [], acc => acc.reverse
  | p :: rest, acc =>
    if h : p.1 < metadata.length then
      if matches_filters city incident (metadata.get ⟨p.1, h⟩) then
        if top_k ≤ ((metadata.get ⟨p.1, h⟩, p.2) :: acc).length then
          ((metadata.get ⟨p.1, h⟩, p.2) :: acc).reverse
        else collectLoop metadata city incident top_k rest
          ((metadata.get ⟨p.1, h⟩, p.2) :: acc)
      else collectLoop metadata city incident top_k rest acc
    else collectLoop metadata city incident top_k rest acc

/-- `RAGPipeline.retrieve`: search the index for
`min(top_k, len(metadata))` candidates, then filter and truncate.  The
pipeline state is abstracted to the per-record similarity scores of the
query (`scores`) and the metadata list. -/
def retrieve (metadata : List Record) (scores : List ℚ) (top_k : Nat)
    (city incident : Option Str) : List (Record × ℚ) :=
  collectLoop metadata city incident top_k
    (searchIdx scores (min top_k metadata.length)) []

/-! ## Load and reload (`rag_pipeline.py`) -/

/-- The loaded state of a `RAGPipeline`: FAISS index contents and parsed
metadata records (the embedding model handle is abstracted away — its
successful construction is the `modelOk` input of `loadIndexFn`). -/
structure Pipeline (α : Type) where
  index : List α
  metadata : List Record
deriving DecidableEq, Repr

/-- Message of the missing-FAISS-index `FileNotFoundError` in
`RAGPipeline._load_index` (path elided). -/
def faissMissingMsg : Str := ("FAISS index not found").data

/-- Message of the missing-metadata `FileNotFoundError` in
`RAGPipeline._load_index` (path elided). -/
def metadataMissingMsg : Str := ("Metadata file not found").data

/-- Message of the embedding-model `RuntimeError` in
`RAGPipeline._load_index`. -/
def modelFailMsg : Str := ("Failed to load embedding model").data

/-- `RAGPipeline.__init__` / `_load_index`: raise `FileNotFoundError`
if the FAISS index file is absent, then `FileNotFoundError` if the
metadata file is absent, then `RuntimeError` if the embedding model
cannot be constructed; otherwise return the loaded pipeline. -/
def loadIndexFn {α : Type} (faissExists metaExists modelOk : Bool)
    (idx : List α) (md : List Record) : Except PyError (Pipeline α) :=
  if !faissExists then .error (.fileNotFound faissMissingMsg)
  else if !metaExists then .error (.fileNotFound metadataMissingMsg)
  else if !modelOk then .error (.runtimeError modelFailMsg)
  else .ok ⟨idx, md⟩

/-- `reload_rag_pipeline`: `_rag_pipeline = RAGPipeline()` — the
constructor runs to completion before the global is reassigned, so a
constructor exception leaves the previous value in place.  Returns the
new global state together with the call's outcome. -/
def reload_rag_pipeline {α : Type} (faissExists metaExists modelOk : Bool)
    (idx : List α) (md : List Record) (st : Option (Pipeline α)) :
    Option (Pipeline α) × Except PyError Unit :=
  match loadIndexFn faissExists metaExists modelOk idx md with
  | .error e => (st, .error e)
  | .ok p => (some p, .ok ())

/-! ### Chunker lemmas -/

lemma chunkGo_nil (size overlap f : Nat) :
    chunkGo size overlap f ([] : List α) = [] := by
  cases f <;> rfl

lemma chunkGo_congr (size overlap : Nat) :
    ∀ (f f' : Nat) (l : List α), l.length ≤ f → l.length ≤ f' →
      chunkGo size overlap f l = chunkGo size overlap f' l := by
  intro f
  induction f with
  | zero =>
    intro f' l hl _
    have hnil : l = [] := List.length_eq_zero.mp (Nat.le_zero.mp hl)
    subst hnil
    simp [chunkGo_nil]
  | succ f ih =>
    intro f' l hl hl'
    cases l with
    | nil => simp [chunkGo_nil]
    | cons w ws =>
      cases f' with
      | zero => exact absurd hl' (by simp)
      | succ f' =>
        have hws : ws.length ≤ f := by
          have := hl; simp [List.length_cons] at this; omega
        have hws' : ws.length ≤ f' := by
          have := hl'; simp [List.length_cons] at this; omega
        have hlen : (ws.drop (size - overlap - 1)).length ≤ f := by
          rw [List.length_drop]; omega
        have hlen' : (ws.drop (size - overlap - 1)).length ≤ f' := by
          rw [List.length_drop]; omega
        simp only [chunkGo]
        rw [ih f' _ hlen hlen']

/-- Unfolding equation for `chunkWindows` on a non-empty word list, in
terms of the step `size - overlap` (valid when `overlap < size`). -/
lemma chunkWindows_cons (size overlap : Nat) (h : overlap < size)
    (w : α) (ws : List α) :
    chunkWindows size overlap (w :: ws) =
      (w :: ws).take size ::
        chunkWindows size overlap ((w :: ws).drop (size - overlap)) := by
  have hstep : size - overlap = (size - overlap - 1) + 1 := by omega
  have hdrop : (w :: ws).drop (size - overlap) = ws.drop (size - overlap - 1) := by
    rw [hstep]; rfl
  unfold chunkWindows
  simp only [List.length_cons, chunkGo]
  rw [hdrop]
  apply congrArg (List.cons ((w :: ws).take size))
  exact chunkGo_congr size overlap ws.length (ws.drop (size - overlap - 1)).length
    (ws.drop (size - overlap - 1)) (by rw [List.length_drop]; omega) le_rfl

lemma chunkWindows_nil (size overlap : Nat) :
    chunkWindows size overlap ([] : List α) = [] := rfl

/-- Dropping the first `overlap` words of every window (first included)
and concatenating yields the original word list minus its first
`overlap` words. -/
lemma flatten_drop_chunkWindows (size overlap : Nat) (h : overlap < size) :
    ∀ (n : Nat) (l : List α), l.length ≤ n →
      ((chunkWindows size overlap l).map (List.drop overlap)).flatten =
        l.drop overlap := by
  intro n
  induction n with
  | zero =>
    intro l hl
    have hnil : l = [] := List.length_eq_zero.mp (Nat.le_zero.mp hl)
    subst hnil
    simp [chunkWindows_nil]
  | succ n ih =>
    intro l hl
    cases l with
    | nil => simp [chunkWindows_nil]
    | cons w ws =>
      rw [chunkWindows_cons size overlap h]
      simp only [List.map_cons, List.flatten_cons]
      have hlen : ((w :: ws).drop (size - overlap)).length ≤ n := by
        rw [List.length_drop]
        simp only [List.length_cons] at hl ⊢
        omega
      rw [ih _ hlen, List.drop_drop, List.drop_take]
      have hso : size - overlap + overlap = size := by omega
      rw [hso]
      have hdd : List.drop size (w :: ws) =
          List.drop (size - overlap) (List.drop overlap (w :: ws)) := by
        rw [List.drop_drop]
        have : overlap + (size - overlap) = size := by omega
        rw [this]
      rw [hdd, List.take_append_drop]

/-- The `k`-th window starts at word index `k * (size - overlap)` and
takes `size` words. -/
lemma chunkWindows_getElem (size overlap : Nat) (h : overlap < size) :
    ∀ (n : Nat) (l : List α) (k : Nat),
      l.length ≤ n → k < (chunkWindows size overlap l).length →
      (chunkWindows size overlap l)[k]? =
        some ((l.drop (k * (size - overlap))).take size) := by
  intro n
  induction n with
  | zero =>
    intro l k hl hk
    have hnil : l = [] := List.length_eq_zero.mp (Nat.le_zero.mp hl)
    subst hnil
    simp [chunkWindows_nil] at hk
  | succ n ih =>
    intro l k hl hk
    cases l with
    | nil => simp [chunkWindows_nil] at hk
    | cons w ws =>
      rw [chunkWindows_cons size overlap h] at hk ⊢
      cases k with
      | zero => simp
      | succ k =>
        rw [List.getElem?_cons_succ]
        have hlen : ((w :: ws).drop (size - overlap)).length ≤ n := by
          rw [List.length_drop]
          simp only [List.length_cons] at hl ⊢
          omega
        have hk' : k < (chunkWindows size overlap
            ((w :: ws).drop (size - overlap))).length := by
          simpa using hk
        rw [ih _ k hlen hk', List.drop_drop]
        have : size - overlap + k * (size - overlap) = (k + 1) * (size - overlap) := by
          rw [Nat.succ_mul]
          omega
        rw [this]

/-- The word list only ever loses its head character count per step, so
a word list of positive length at most `size - overlap` yields a single
window holding the whole list. -/
lemma chunkWindows_single (size overlap : Nat) (h : overlap < size)
    (l : List α) (hpos : 0 < l.length) (hle : l.length ≤ size - overlap) :
    chunkWindows size overlap l = [l] := by
  cases l with
  | nil => simp at hpos
  | cons w ws =>
    rw [chunkWindows_cons size overlap h]
    have hdropnil : (w :: ws).drop (size - overlap) = [] := by
      apply List.drop_eq_nil_of_le
      simpa using hle
    rw [hdropnil, chunkWindows_nil]
    have htake : (w :: ws).take size = w :: ws := by
      apply List.take_of_length_le
      have : size - overlap ≤ size := by omega
      calc (w :: ws).length ≤ size - overlap := hle
        _ ≤ size := this
    rw [htake]

/-! ## Claim theorems -/

/-- C1: for every text and every configuration with
`0 ≤ overlap < size`, the chunker tokenizes the text on whitespace and
produces the windows starting at word indices `0, step, 2*step, …`
(`step = size - overlap`), and concatenating the windows after dropping
the first `overlap` words of every window except the first reconstructs
the whitespace-token sequence of the text exactly. -/
theorem chunker_windows_reconstruct (size overlap : Nat) (text : Str)
    (h : overlap < size) :
    (∀ k, k < (chunkWindows size overlap (pySplitWs text)).length →
      (chunkWindows size overlap (pySplitWs text))[k]? =
        some (((pySplitWs text).drop (k * (size - overlap))).take size))
    ∧ reconstruct overlap (chunkWindows size overlap (pySplitWs text)) =
        pySplitWs text := by
  constructor
  · intro k hk
    exact chunkWindows_getElem size overlap h (pySplitWs text).length
      (pySplitWs text) k le_rfl hk
  · generalize pySplitWs text = L
    cases L with
    | nil => simp [chunkWindows_nil, reconstruct]
    | cons w ws =>
      rw [chunkWindows_cons size overlap h]
      simp only [reconstruct]
      rw [flatten_drop_chunkWindows size overlap h
        ((w :: ws).drop (size - overlap)).length _ le_rfl]
      rw [List.drop_drop]
      have hso : size - overlap + overlap = size := by omega
      rw [hso, List.take_append_drop]

/-- Witness for C1 at `size = 3`, `overlap = 1`, text `"a b c d"`. -/
theorem chunker_windows_reconstruct_witness :
    1 < 3 ∧
    reconstruct 1 (chunkWindows 3 1 (pySplitWs ("a b c d").data)) =
      pySplitWs ("a b c d").data :=
  ⟨by decide, (chunker_windows_reconstruct 3 1 (("a b c d").data) (by decide)).2⟩

/-- Counterexample to C2 as stated: with the valid configuration
`size = 3`, `overlap = 2`, the text `"a b"` tokenizes to 2 words — at
least one and fewer than `size` — yet the chunker produces two chunks
(`["a","b"]` and `["b"]`), not one. -/
theorem chunker_single_chunk_counterexample :
    (pySplitWs ("a b").data).length = 2 ∧ 0 < 2 ∧ 2 < 3 ∧
    chunkWindows 3 2 (pySplitWs ("a b").data) = [[['a'], ['b']], [['b']]] := by
  decide

/-- C2 (amended): for every text that tokenizes to at least one word and
at most `size - overlap` words, the chunker produces exactly one chunk,
containing all the words of the text.  (The claim's bound
`< size_words` is not enough: any word count in
`(size - overlap, size)` yields a second, shorter chunk.) -/
theorem chunker_single_chunk_amended (size overlap : Nat) (text : Str)
    (h : overlap < size) (hpos : 0 < (pySplitWs text).length)
    (hle : (pySplitWs text).length ≤ size - overlap) :
    chunkWindows size overlap (pySplitWs text) = [pySplitWs text] :=
  chunkWindows_single size overlap h (pySplitWs text) hpos hle

/-- Witness for the amended C2 at `size = 3`, `overlap = 1`,
text `"a b"`. -/
theorem chunker_single_chunk_amended_witness :
    1 < 3 ∧ 0 < (pySplitWs ("a b").data).length ∧
    (pySplitWs ("a b").data).length ≤ 3 - 1 ∧
    chunkWindows 3 1 (pySplitWs ("a b").data) = [pySplitWs ("a b").data] :=
  ⟨by decide, by decide, by decide,
    chunker_single_chunk_amended 3 1 (("a b").data) (by decide) (by decide)
      (by decide)⟩

/-! ### Filter lemmas -/

/-- The empty string is a Python-substring of every string. -/
lemma pyContains_nil (hay : Str) : pyContains hay [] = true := by
  induction hay with
  | nil => rfl
  | cons c t ih => simp [pyContains, List.isPrefixOf, ih]

/-- Boolean shape shared by `matches_filters` and the conjunction of the
two `passDim` tests. -/
lemma filter_bool_shape (t p q u r s : Bool) :
    (if t && (!p && !q) then false else if u && (!r && !s) then false else true) =
      ((!t || p || q) && (!u || r || s)) := by
  cases t <;> cases p <;> cases q <;> cases u <;> cases r <;> cases s <;> rfl

/-- Counterexample to C4 as stated: for the record with
`city = "ab"` and the supplied filter `city = " "` (one space, a value
that is truthy in Python but empty after stripping), the code's
`matches_filters` keeps the candidate, while the claim's strip-less
symmetric lower-cased substring predicate (`claimMatches`) rejects it —
`" "` is not a substring of `"ab"` and `"ab"` is not a substring of
`" "`.  So inclusion is not equivalent to the claim's filter predicate. -/
theorem filters_match_counterexample :
    matches_filters (some ((" ").data)) none ⟨[], ("ab").data, []⟩ = true ∧
    claimMatches (some ((" ").data)) none ⟨[], ("ab").data, []⟩ = false := by
  decide

/-- C4 (amended): a candidate is included iff it passes both filters,
where for each dimension a candidate passes iff no truthy value was
supplied for it, or — after stripping surrounding whitespace and
lower-casing both the supplied value and the record field — the supplied
value is a substring of the record field or the record field is a
substring of the supplied value. -/
theorem filters_match_amended (city incident : Option Str) (meta : Record) :
    matches_filters city incident meta =
      (passDim city meta.city && passDim incident meta.incident_type) := by
  unfold matches_filters passDim
  generalize truthy city = t
  generalize truthy incident = u
  generalize pyContains (pyLower (pyStrip meta.city))
    (pyLower (pyStrip (strOrEmpty city))) = p
  generalize pyContains (pyLower (pyStrip (strOrEmpty city)))
    (pyLower (pyStrip meta.city)) = q
  generalize pyContains (pyLower (pyStrip meta.incident_type))
    (pyLower (pyStrip (strOrEmpty incident))) = r
  generalize pyContains (pyLower (pyStrip (strOrEmpty incident)))
    (pyLower (pyStrip meta.incident_type)) = s
  exact filter_bool_shape t p q u r s

/-- C10: a `city` or `incident_type` filter value whose strip is empty —
the empty string or any whitespace-only string — is treated exactly as
an absent filter and never excludes any candidate, because the code
strips both sides before the substring comparison and the empty string
is a substring of every string. -/
theorem blank_filter_passes (s : Str) (hs : pyStrip s = []) :
    (∀ inc meta, matches_filters (some s) inc meta =
        matches_filters none inc meta) ∧
    (∀ c meta, matches_filters c (some s) meta =
        matches_filters c none meta) ∧
    (∀ meta, matches_filters (some s) none meta = true) := by
  have hnorm : pyLower (pyStrip s) = [] := by rw [hs]; rfl
  refine ⟨fun inc meta => ?_, fun c meta => ?_, fun meta => ?_⟩
  · simp [matches_filters, strOrEmpty, hnorm, pyContains_nil, truthy]
  · simp [matches_filters, strOrEmpty, hnorm, pyContains_nil, truthy]
  · simp [matches_filters, strOrEmpty, hnorm, pyContains_nil, truthy]

/-- Witness for C10 at the whitespace-only filter `" "` against a
record with non-matching field text. -/
theorem blank_filter_passes_witness :
    pyStrip ((" ").data) = [] ∧
    matches_filters (some ((" ").data)) none ⟨[], ("x").data, ("y").data⟩ = true :=
  ⟨by decide,
    (blank_filter_passes ((" ").data) (by decide)).2.2 ⟨[], ("x").data, ("y").data⟩⟩

/-! ### Search and retrieve lemmas -/

lemma searchIdx_length (scores : List ℚ) (k : Nat) :
    (searchIdx scores k).length = min k scores.length := by
  unfold searchIdx
  rw [List.length_take, List.length_insertionSort, List.enum_length]

lemma searchIdx_sorted (scores : List ℚ) (k : Nat) :
    List.Sorted (fun a b : Nat × ℚ => b.2 ≤ a.2) (searchIdx scores k) := by
  unfold searchIdx
  exact List.Pairwise.sublist (List.take_sublist k _)
    (List.sorted_insertionSort (fun a b : Nat × ℚ => b.2 ≤ a.2) scores.enum)

lemma searchIdx_mem_lt (scores : List ℚ) (k : Nat) :
    ∀ p ∈ searchIdx scores k, p.1 < scores.length := by
  intro p hp
  unfold searchIdx at hp
  have h1 : p ∈ List.insertionSort (fun a b : Nat × ℚ => b.2 ≤ a.2) scores.enum :=
    List.mem_of_mem_take hp
  have h2 : p ∈ scores.enum :=
    ((List.perm_insertionSort (fun a b : Nat × ℚ => b.2 ≤ a.2) scores.enum).mem_iff).mp h1
  exact List.fst_lt_of_mem_enum h2

/-- Without filters every in-range candidate is kept, so as long as the
break threshold is not passed the loop keeps one result per candidate. -/
lemma collectLoop_length_nofilter (metadata : List Record) (top_k : Nat) :
    ∀ (cands : List (Nat × ℚ)) (acc : List (Record × ℚ)),
      (∀ p ∈ cands, p.1 < metadata.length) →
      acc.length + cands.length ≤ top_k →
      (collectLoop metadata none none top_k cands acc).length =
        acc.length + cands.length := by
  intro cands
  induction cands with
  | nil =>
    intro acc _ _
    simp [collectLoop]
  | cons p rest ih =>
    intro acc hvalid hle
    have hp : p.1 < metadata.length := hvalid p (by simp)
    have hmatch : matches_filters none none (metadata.get ⟨p.1, hp⟩) = true := by
      simp [matches_filters, truthy]
    simp only [collectLoop]
    rw [dif_pos hp, if_pos hmatch]
    by_cases hbr : top_k ≤ ((metadata.get ⟨p.1, hp⟩, p.2) :: acc).length
    · rw [if_pos hbr]
      have hrest : rest.length = 0 := by
        simp only [List.length_cons] at hbr hle
        omega
      simp [List.length_reverse, hrest]
    · rw [if_neg hbr]
      have hvalid' : ∀ q ∈ rest, q.1 < metadata.length := by
        intro q hq
        exact hvalid q (by simp [hq])
      have hle' : ((metadata.get ⟨p.1, hp⟩, p.2) :: acc).length + rest.length ≤ top_k := by
        simp only [List.length_cons] at hle ⊢
        omega
      rw [ih _ hvalid' hle']
      simp only [List.length_cons]
      omega

/-- C3: the retriever asks the vector index for
`min(top_k, len(metadata))` candidates; that search yields exactly
`min(top_k, len(metadata))` hits sorted by non-increasing score, and
unfiltered retrieval returns exactly `min(top_k, len(metadata))`
results — in particular `top_k` results when `top_k` is at most the
record count, and the record count (with no error) otherwise. -/
theorem retrieve_count (metadata : List Record) (scores : List ℚ)
    (top_k : Nat) (hlen : scores.length = metadata.length) :
    (searchIdx scores (min top_k metadata.length)).length =
      min top_k metadata.length ∧
    List.Sorted (fun a b : Nat × ℚ => b.2 ≤ a.2)
      (searchIdx scores (min top_k metadata.length)) ∧
    (retrieve metadata scores top_k none none).length =
      min top_k metadata.length := by
  have hcl : (searchIdx scores (min top_k metadata.length)).length =
      min top_k metadata.length := by
    rw [searchIdx_length, hlen, min_assoc, min_self]
  refine ⟨hcl, searchIdx_sorted _ _, ?_⟩
  unfold retrieve
  rw [collectLoop_length_nofilter metadata top_k _ []
    (fun p hp => by
      have h := searchIdx_mem_lt scores (min top_k metadata.length) p hp
      rwa [hlen] at h)
    (by rw [List.length_nil, Nat.zero_add, hcl]; exact min_le_left _ _)]
  rw [List.length_nil, Nat.zero_add, hcl]

/-- Witness for C3: an index of 1 stored record queried with
`top_k = 3` returns exactly 1 result. -/
theorem retrieve_count_witness :
    ([(1 : ℚ)].length = [(⟨("t").data, [], []⟩ : Record)].length) ∧
    (retrieve [⟨("t").data, [], []⟩] [(1 : ℚ)] 3 none none).length = 1 :=
  ⟨rfl, (retrieve_count [⟨("t").data, [], []⟩] [(1 : ℚ)] 3 rfl).2.2⟩

/-! ### Builder theorems -/

/-- Counterexample to C5 as stated: for the document
`"city: Mumbai\nhello world"` the builder parses `city: Mumbai` into the
metadata record, yet its single chunk's text is
`"city: Mumbai hello world"`, which contains that parsed metadata header
line — the source passes the full text, not the post-header remainder,
to the chunker. -/
theorem builder_chunks_full_text_counterexample :
    (processFile (("doc.txt").data) (("city: Mumbai\nhello world").data)).map
        (fun c => c.text) = [("city: Mumbai hello world").data] ∧
    pyContains (("city: Mumbai hello world").data) (("city: Mumbai").data) = true ∧
    (parseMeta (("doc.txt").data)
        (pySplitLines (("city: Mumbai\nhello world").data))).city =
      ("Mumbai").data := by
  decide

/-- C5 (amended): the builder parses only the first 10 lines for
`key: value` metadata pairs (lines without a colon skipped, unrecognized
keys ignored), but passes the FULL text — header lines included — to the
chunker, so chunk texts can contain the parsed metadata header lines. -/
theorem builder_chunks_full_text (fname text : Str) :
    ((processFile fname text).map (fun c => c.text) =
      chunk_text CHUNK_SIZE_WORDS CHUNK_OVERLAP text) ∧
    (parseMeta fname (pySplitLines text) =
      parseMeta fname ((pySplitLines text).take 10)) := by
  constructor
  · unfold processFile
    rw [List.map_map]
    have hcomp : ((fun c : ChunkDoc => c.text) ∘
        (fun ic : Nat × Str =>
          (⟨fname ++ ("__chunk").data ++ natStr ic.1, ic.2,
            parseMeta fname (pySplitLines text)⟩ : ChunkDoc))) =
        Prod.snd := rfl
    rw [hcomp, List.enum_map_snd]
  · unfold parseMeta
    rw [List.take_take, min_self]

/-- Counterexample to C6 as stated: on a corpus whose only file is
filtered out (`notes.pdf`), zero chunks are produced, yet `main` returns
normally (`Except.ok`) after printing a message — there is no
`NoDocumentsError` and no exception of any kind; the previous persisted
index is left in place. -/
theorem builder_empty_no_error_counterexample :
    (buildMain (fun _ => (0 : Nat)) id (some ⟨[0], []⟩)
        [((("notes.pdf").data), ("hello world").data)]).isOk = true ∧
    buildMain (fun _ => (0 : Nat)) id (some ⟨[0], []⟩)
      [((("notes.pdf").data), ("hello world").data)] =
        .ok (some ⟨[0], []⟩, .noValidDocs) := by
  decide

/-- C6 (amended): whenever enumeration and chunking produce zero chunks,
the builder performs no write to durable storage — the previously
persisted index and metadata survive unchanged — and returns normally
with the no-valid-docs outcome (printing a message) instead of raising a
`NoDocumentsError`, which does not exist in the code. -/
theorem builder_empty_no_write {α : Type} (encode : Str → α)
    (normalize : α → α) (prev : Option (Persisted α))
    (files : List (Str × Str)) (h : buildDocs files = []) :
    buildMain encode normalize prev files = .ok (prev, .noValidDocs) := by
  simp [buildMain, h]

/-- Witness for the amended C6 at a concrete filtered-out corpus and a
concrete previously persisted index. -/
theorem builder_empty_no_write_witness :
    buildDocs [((("notes.pdf").data), ("some legal text").data)] = [] ∧
    buildMain (fun _ => (7 : Nat)) id (some ⟨[7], []⟩)
      [((("notes.pdf").data), ("some legal text").data)] =
        .ok (some ⟨[7], []⟩, .noValidDocs) :=
  ⟨by decide,
    builder_empty_no_write (fun _ => (7 : Nat)) id (some ⟨[7], []⟩)
      [((("notes.pdf").data), ("some legal text").data)] (by decide)⟩

/-- C8: after every successful build, the number of vectors stored in
the index equals the number of records written to the metadata store,
and the vector at each ordinal position is the (normalized) embedding of
the chunk text of the record at the same ordinal position. -/
theorem build_index_metadata_aligned {α : Type} (encode : Str → α)
    (normalize : α → α) (prev : Option (Persisted α))
    (files : List (Str × Str)) (P : Persisted α) (n : Nat)
    (h : buildMain encode normalize prev files = .ok (some P, .built n)) :
    P.vectors.length = P.metadataLines.length ∧
    ∀ i (h1 : i < P.vectors.length) (h2 : i < P.metadataLines.length),
      P.vectors.get ⟨i, h1⟩ =
        normalize (encode ((P.metadataLines.get ⟨i, h2⟩).text)) := by
  dsimp only [buildMain] at h
  split at h
  · simp at h
  · simp only [Except.ok.injEq, Prod.mk.injEq, Option.some.injEq] at h
    obtain ⟨hP, -⟩ := h
    subst hP
    constructor
    · simp
    · intro i h1 h2
      simp [List.get_eq_getElem, List.getElem_map]

/-- Witness for C8 at a one-file corpus with the identity embedder. -/
theorem build_index_metadata_aligned_witness :
    buildMain (α := Str) id id none [((("a.txt").data), ("hello").data)] =
      .ok (some ⟨[("hello").data],
        [⟨("a.txt__chunk0").data, ("hello").data, initMeta (("a.txt").data)⟩]⟩,
        .built 1) ∧
    ([("hello").data].length =
      [(⟨("a.txt__chunk0").data, ("hello").data,
        initMeta (("a.txt").data)⟩ : ChunkDoc)].length) :=
  ⟨by decide,
    (build_index_metadata_aligned (α := Str) id id none
      [((("a.txt").data), ("hello").data)]
      ⟨[("hello").data],
        [⟨("a.txt__chunk0").data, ("hello").data, initMeta (("a.txt").data)⟩]⟩
      1 (by decide)).1⟩

/-! ### Load and reload theorems -/

/-- Counterexample to C7 as stated: the missing-metadata failure and the
missing-index failure are raised with the SAME Python exception type,
the builtin `FileNotFoundError` — they differ only in message, so there
is no dedicated `MetadataMissingError` type distinguishable from the
missing-index error. -/
theorem metadata_missing_same_type_counterexample :
    loadIndexFn (α := Nat) true false true [] [] =
      .error (.fileNotFound metadataMissingMsg) ∧
    loadIndexFn (α := Nat) false true true [] [] =
      .error (.fileNotFound faissMissingMsg) ∧
    PyError.excType (.fileNotFound metadataMissingMsg) =
      PyError.excType (.fileNotFound faissMissingMsg) := by
  decide

/-- C7 (amended): when the vector index file exists but the metadata
file is absent, load fails with a `FileNotFoundError` carrying the
metadata-specific message — the same exception type as the
missing-index failure, distinguishable from it only by message — and no
pipeline value is constructed, so the pipeline does not become
loaded. -/
theorem metadata_missing_load_fails {α : Type} (modelOk : Bool)
    (idx : List α) (md : List Record) :
    loadIndexFn true false modelOk idx md =
      .error (.fileNotFound metadataMissingMsg) := rfl

/-- C9: the reload operation constructs the whole new pipeline value
first and reassigns the global only after that construction succeeds; if
construction fails with any error, the previously loaded value remains
the observed state. -/
theorem reload_preserves_on_failure {α : Type} (fE mE mo : Bool)
    (idx : List α) (md : List Record) (st : Option (Pipeline α)) :
    (∀ e, loadIndexFn fE mE mo idx md = .error e →
      reload_rag_pipeline fE mE mo idx md st = (st, .error e)) ∧
    (∀ p, loadIndexFn fE mE mo idx md = .ok p →
      reload_rag_pipeline fE mE mo idx md st = (some p, .ok ())) := by
  constructor
  · intro e he
    unfold reload_rag_pipeline
    rw [he]
  · intro p hp
    unfold reload_rag_pipeline
    rw [hp]

/-- Witness for C9: a reload that fails on a missing metadata file
leaves the previously loaded pipeline in place. -/
theorem reload_preserves_on_failure_witness :
    loadIndexFn (α := Nat) true false true [] [] =
      .error (.fileNotFound metadataMissingMsg) ∧
    reload_rag_pipeline (α := Nat) true false true [] []
        (some ⟨[3], [⟨("t").data, [], []⟩]⟩) =
      (some ⟨[3], [⟨("t").data, [], []⟩]⟩,
        .error (.fileNotFound metadataMissingMsg)) :=
  ⟨rfl,
    (reload_preserves_on_failure (α := Nat) true false true [] []
      (some ⟨[3], [⟨("t").data, [], []⟩]⟩)).1
      (.fileNotFound metadataMissingMsg) rfl⟩

end Nyay

